import Mathlib

/-!
Shallow embedding of the audio-fingerprinting pipeline of the
audio-algorithm-explorer repository, together with theorems settling the
frozen claims C1 - C10 about it.

Sources embedded here:
  * src/scripts/utils/fft.js                 (class FFT, namespace FFTjs)
  * src/scripts/visualizations/spectrogram.js
      - the private FFT class at the bottom of the file (namespace SpectroFFT)
      - SpectrogramVisualizer.processSpectrogramData / applyWindow
        (namespace SpectroVis)
  * src/scripts/visualizations/constellation.js and src/unnamed/part_002
      (FingerprintVisualizer; identical processSpectrogramData / findPeaks) -
      namespaces Constellation and Fingerprint
  * src/scripts/plugins/constellation.js (ConstellationPlugin.findPeaks) -
      namespace Plugin

Modelling conventions, used consistently below:
  * JavaScript numbers are modelled by exact real numbers.  Rounding of
    float arithmetic is out of scope; every claim below is either exact or
    has a tolerance vastly larger than double rounding error.
  * A JavaScript number that may be NaN (for instance the result of reading
    an out-of-range index of a typed array, which yields undefined and then
    NaN under arithmetic) is modelled by Option ℝ (none = NaN/undefined).
  * Where the code can also produce the infinities (the running min/max
    initialised with -Infinity/Infinity, and division by zero during
    normalisation) we use the four-case type JSV below, which mirrors the
    IEEE special values NaN, +Infinity, -Infinity and "finite".
  * Loops are folds over index lists; a loop "for (i = s; i < n; i += d)"
    runs over the list (List.range ((n - s + d - 1) / d)).map (s + d * .),
    and a loop that counts upward by 1 over an interval is List.range'.
    A JavaScript loop bound that would be negative gives zero iterations,
    which truncated ℕ subtraction reproduces.
-/

/-! ## JavaScript number model -/

/-- NaN-propagating addition on Option ℝ (none = NaN). -/
def oadd : Option ℝ → Option ℝ → Option ℝ
  | some a, some b => some (a + b)
  | _, _ => none

/-- NaN-propagating subtraction on Option ℝ (none = NaN). -/
def osub : Option ℝ → Option ℝ → Option ℝ
  | some a, some b => some (a - b)
  | _, _ => none

/-- NaN-propagating multiplication on Option ℝ (none = NaN). -/
def omul : Option ℝ → Option ℝ → Option ℝ
  | some a, some b => some (a * b)
  | _, _ => none

/-- NaN-propagating lift of a unary real function. -/
def omap (f : ℝ → ℝ) : Option ℝ → Option ℝ
  | some a => some (f a)
  | none => none

/-- JavaScript double with its special values: NaN, +Infinity, -Infinity,
or a finite number (modelled exactly). -/
inductive JSV : Type where
  | nan : JSV
  | inf : JSV
  | ninf : JSV
  | fin (x : ℝ) : JSV

/-- Math.max on JSV: NaN absorbs, otherwise the larger value. -/
def jsMax : JSV → JSV → JSV
  | .nan, _ => .nan
  | _, .nan => .nan
  | .inf, _ => .inf
  | _, .inf => .inf
  | .ninf, y => y
  | x, .ninf => x
  | .fin a, .fin b => .fin (max a b)

/-- Math.min on JSV: NaN absorbs, otherwise the smaller value. -/
def jsMin : JSV → JSV → JSV
  | .nan, _ => .nan
  | _, .nan => .nan
  | .ninf, _ => .ninf
  | _, .ninf => .ninf
  | .inf, y => y
  | x, .inf => x
  | .fin a, .fin b => .fin (min a b)

/-- JavaScript subtraction on JSV.  Infinity - Infinity is NaN. -/
def jsSub : JSV → JSV → JSV
  | .nan, _ => .nan
  | _, .nan => .nan
  | .inf, .inf => .nan
  | .inf, _ => .inf
  | .ninf, .ninf => .nan
  | .ninf, _ => .ninf
  | .fin _, .inf => .ninf
  | .fin _, .ninf => .inf
  | .fin a, .fin b => .fin (a - b)

open Classical in
/-- JavaScript division on JSV.  0/0 is NaN, x/0 for x nonzero is a signed
infinity (we model a +0 denominator, the only form arising here), and
infinity/infinity is NaN. -/
noncomputable def jsDiv : JSV → JSV → JSV
  | .nan, _ => .nan
  | _, .nan => .nan
  | .inf, .inf => .nan
  | .inf, .ninf => .nan
  | .ninf, .inf => .nan
  | .ninf, .ninf => .nan
  | .inf, .fin b => if b < 0 then .ninf else .inf
  | .ninf, .fin b => if b < 0 then .inf else .ninf
  | .fin _, .inf => .fin 0
  | .fin _, .ninf => .fin 0
  | .fin a, .fin b =>
      if b = 0 then (if a = 0 then .nan else if 0 < a then .inf else .ninf)
      else .fin (a / b)

/-- Injection of the Option ℝ model into the JSV model. -/
def toJSV : Option ℝ → JSV
  | none => .nan
  | some x => .fin x

/-! ## Data model: peaks and target zones -/

/-- A constellation peak as pushed by findPeaks: time index t, frequency
index f (JavaScript numbers holding loop counters, hence integers) and the
normalized magnitude stored with it. -/
structure Peak (α : Type) where
  t : ℤ
  f : ℤ
  intensity : α
deriving DecidableEq

instance {α : Type} [Inhabited α] : Inhabited (Peak α) := ⟨⟨0, 0, default⟩⟩

/-- The target-zone parameters: constellation.js fields minTargetDt,
maxTargetDt, maxFreqDelta; part_002 fields targetZoneStart, targetZoneEnd,
targetZoneHeight. -/
structure TargetZone where
  minDt : ℤ
  maxDt : ℤ
  maxDf : ℤ

/-- Comparison used by the sort in createPairs
(JavaScript comparator (a, b) => a.t - b.t). -/
def Peak.byT {α : Type} (a b : Peak α) : Prop := a.t ≤ b.t

instance {α : Type} : DecidableRel (Peak.byT (α := α)) :=
  fun a b => inferInstanceAs (Decidable (a.t ≤ b.t))

instance {α : Type} : IsTotal (Peak α) Peak.byT :=
  ⟨fun a b => Int.le_total a.t b.t⟩

instance {α : Type} : IsTrans (Peak α) Peak.byT :=
  ⟨fun _ _ _ h h' => le_trans h h'⟩

/-! ## ConstellationVisualizer.findPeaks / createPairs
(src/scripts/visualizations/constellation.js lines 56-139; the identical
FingerprintVisualizer.findPeaks of src/unnamed/part_002 lines 146-200). -/

namespace Constellation

variable {α : Type} [LinearOrder α] [Inhabited α]

/-- Cell access this.spectrogramData[t][f].  Out-of-range JavaScript reads
yield undefined; the default is never reached in the scans below because
every generated index is in range for rectangular matrices. -/
def cell (m : List (List α)) (t f : ℕ) : α := (m.getD t []).getD f default

/-- The local-maximum-and-threshold test of findPeaks at cell (t, f):
isPeak is true iff every other cell of the square neighborhood is strictly
below the cell and the cell is not below the threshold.  The JavaScript
offsets dt, df range over [-neighborhood, neighborhood]; here u = dt + nbh
and v = df + nbh range over [0, 2*nbh], and the neighbor index t + dt is
written t + u - nbh (exact, since the scan only calls this with t ≥ nbh,
f ≥ nbh). -/
def isCand (m : List (List α)) (nbh : ℕ) (thr : α) (t f : ℕ) : Bool :=
  ((List.range (2 * nbh + 1)).all fun u =>
    (List.range (2 * nbh + 1)).all fun v =>
      (decide (u = nbh) && decide (v = nbh)) ||
        decide (cell m (t + u - nbh) (f + v - nbh) < cell m t f))
  && !(decide (cell m t f < thr))

/-- The scan order of findPeaks: t from nbh while t < numFrames - nbh,
inside it f from nbh while f < numBins - nbh, where
numBins = floor(frequencyBinCount / 4).  A negative JavaScript bound gives
zero iterations, matching truncated ℕ subtraction. -/
def scanCells (numFrames numBins nbh : ℕ) : List (ℕ × ℕ) :=
  (List.range' nbh (numFrames - 2 * nbh)).flatMap fun t =>
    (List.range' nbh (numBins - 2 * nbh)).map fun f => (t, f)

/-- The minimum-distance rejection: the candidate at (t, f) is too close
iff some already accepted peak is within minDistance in BOTH axes. -/
def tooClose (md : ℕ) (acc : List (Peak α)) (t f : ℕ) : Bool :=
  acc.any fun p =>
    decide (|(t : ℤ) - p.t| < (md : ℤ)) && decide (|(f : ℤ) - p.f| < (md : ℤ))

/-- ConstellationVisualizer.findPeaks.  fbc is this.frequencyBinCount
(constructor value 1024), nbh this.peakNeighborhood (15), thr
this.peakThreshold (0.4), md this.minDistance (20). -/
def findPeaks (fbc nbh : ℕ) (thr : α) (md : ℕ) (m : List (List α)) :
    List (Peak α) :=
  (scanCells m.length (fbc / 4) nbh).foldl
    (fun acc tf =>
      if isCand m nbh thr tf.1 tf.2 && !tooClose md acc tf.1 tf.2
      then acc ++ [⟨(tf.1 : ℤ), (tf.2 : ℤ), cell m tf.1 tf.2⟩]
      else acc)
    []

/-- The inner look-ahead of createPairs for one anchor: scan the peaks
after the anchor in sorted order, break at the first target with
dt > maxTargetDt, and keep those with dt ≥ minTargetDt and
|df| ≤ maxFreqDelta. -/
def pairsFromAnchor (z : TargetZone) (anchor : Peak α) (rest : List (Peak α)) :
    List (Peak α × Peak α) :=
  ((rest.takeWhile fun tgt => decide (tgt.t - anchor.t ≤ z.maxDt)).filter
      fun tgt => decide (z.minDt ≤ tgt.t - anchor.t)
        && decide (|tgt.f - anchor.f| ≤ z.maxDf)).map
    fun tgt => (anchor, tgt)

/-- The outer loop of createPairs: each sorted peak in turn is the anchor,
paired against the peaks after it. -/
def pairsLoop (z : TargetZone) : List (Peak α) → List (Peak α × Peak α)
  | [] => []
  | a :: rest => pairsFromAnchor z a rest ++ pairsLoop z rest

/-- ConstellationVisualizer.createPairs: sort peaks by time (JavaScript
sort is stable; a stable sort on the key t is unique, and insertionSort by
a.t ≤ b.t is stable), then pair each anchor with the later peaks inside
the target zone.  The early return for an empty peak list coincides with
pairsLoop on []. -/
def createPairs (z : TargetZone) (peaks : List (Peak α)) :
    List (Peak α × Peak α) :=
  pairsLoop z (peaks.insertionSort Peak.byT)

end Constellation

/-! ## FingerprintVisualizer.createPairsForCurrentAnchor
(src/unnamed/part_002 lines 75-94): one designated anchor against the whole
peak list, no sort, no break. -/

namespace Fingerprint

/-- createPairsForCurrentAnchor: every peak whose dt to the anchor lies in
[targetZoneStart, targetZoneEnd] and whose |df| is at most
targetZoneHeight becomes a target of the anchor. -/
def pairsForAnchor {α : Type} (z : TargetZone) (anchor : Peak α)
    (peaks : List (Peak α)) : List (Peak α × Peak α) :=
  (peaks.filter fun tgt =>
      decide (z.minDt ≤ tgt.t - anchor.t) && decide (tgt.t - anchor.t ≤ z.maxDt)
        && decide (|tgt.f - anchor.f| ≤ z.maxDf)).map
    fun tgt => (anchor, tgt)

end Fingerprint

/-! ## ConstellationPlugin.findPeaks
(src/scripts/plugins/constellation.js lines 180-310): the adaptive
region-based variant.  The input matrix holds byte magnitudes 0..255 from
the wavesurfer spectrogram plugin, so cells are naturals and every derived
magnitude v/255 is an exact rational; the whole computation is modelled in
ℚ. -/

/-- A peak object pushed by ConstellationPlugin.findPeaks:
{frequency, magnitude, time}. -/
structure PluginPeak where
  frequency : ℕ
  magnitude : ℚ
  time : ℕ
deriving DecidableEq

namespace Plugin

/-- magnitude = freqData[t][f] / 255. -/
def mag (v : ℕ) : ℚ := (v : ℚ) / 255

/-- numFreqBins = freqData[0].length (the first row's length is used for
every row). -/
def bins (m : List (List ℕ)) : ℕ := (m.headD []).length

/-- Cell read freqData[t][f]; the default is unreachable for the
rectangular matrices of the claims. -/
def cellAt (m : List (List ℕ)) (t f : ℕ) : ℕ := (m.getD t []).getD f 0

/-- The cells visited by the global-statistics loops, in scan order. -/
def cellList (m : List (List ℕ)) : List ℕ :=
  (List.range m.length).flatMap fun t =>
    (List.range (bins m)).map fun f => cellAt m t f

/-- maxMagnitude: starts at 0, updated whenever a magnitude exceeds it. -/
def maxMag (m : List (List ℕ)) : ℚ :=
  (cellList m).foldl (fun a v => max a (mag v)) 0

/-- totalMagnitude accumulator. -/
def totalMag (m : List (List ℕ)) : ℚ :=
  (cellList m).foldl (fun a v => a + mag v) 0

/-- magnitudeCount: one increment per visited cell. -/
def countMag (m : List (List ℕ)) : ℕ := m.length * bins m

/-- avgMagnitude = totalMagnitude / magnitudeCount.  For the empty cell
set JavaScript yields NaN here; that case is handled where used (see
numRegions). -/
def avgMag (m : List (List ℕ)) : ℚ := totalMag m / (countMag m : ℚ)

/-- dynamicMinMagnitude = Math.max(minPeakMagnitude, avgMagnitude * 1.2). -/
def dynamicMin (mpm : ℚ) (m : List (List ℕ)) : ℚ :=
  max mpm (avgMag m * 1.2)

/-- timeRegions = freqRegions =
Math.max(20, Math.min(40, Math.floor(8 / (avgMagnitude / maxMagnitude)))).
The code computes the same expression for both axes; this definition is
used for both.  When maxMagnitude = 0 (all cells zero, or no cells) the
JavaScript expression is NaN (0/0 inside, NaN propagating through floor,
min and max) and the region loops then run zero times; that is modelled
as 0 regions.  For matrices of naturals maxMag m > 0 forces avgMag m > 0,
so the else-branch divides by nonzero values only. -/
def numRegions (m : List (List ℕ)) : ℕ :=
  if maxMag m = 0 then 0
  else max 20 (min 40 (Int.toNat ⌊(8 : ℚ) / (avgMag m / maxMag m)⌋))

/-- timeRegionSize = Math.floor(numTimeFrames / timeRegions). -/
def timeRegionSize (m : List (List ℕ)) : ℕ := m.length / numRegions m

/-- freqRegionSize = Math.floor(numFreqBins / freqRegions). -/
def freqRegionSize (m : List (List ℕ)) : ℕ := bins m / numRegions m

/-- The cells of grid region (tr, fr), in the scan order of the two region
passes: timeStart = tr * timeRegionSize, timeEnd capped at numTimeFrames,
and analogously for frequency. -/
def regionCells (m : List (List ℕ)) (tr fr : ℕ) : List (ℕ × ℕ) :=
  let ts := tr * timeRegionSize m
  let te := min ((tr + 1) * timeRegionSize m) m.length
  let fs := fr * freqRegionSize m
  let fe := min ((fr + 1) * freqRegionSize m) (bins m)
  (List.range' ts (te - ts)).flatMap fun t =>
    (List.range' fs (fe - fs)).map fun f => (t, f)

/-- regionAvgMagnitude: the sum of the region's magnitudes divided by the
region's cell count (first region pass). -/
def regionAvg (m : List (List ℕ)) (tr fr : ℕ) : ℚ :=
  (((regionCells m tr fr).map fun c => mag (cellAt m c.1 c.2)).foldl
    (fun a v => a + v) 0) / ((regionCells m tr fr).length : ℚ)

/-- The 5x5 strict-local-maximum test: every in-bounds neighbor within
offsets -2..2 (excluding the center) must be strictly below the cell.
Neighbor indices are computed in ℤ because JavaScript indices t-2, f-2 can
be negative, and negative or too-large neighbors are skipped by the bounds
test. -/
def isHighest (m : List (List ℕ)) (t f : ℕ) (mg : ℚ) : Bool :=
  (List.range 5).all fun u =>
    (List.range 5).all fun v =>
      (decide (u = 2) && decide (v = 2)) ||
        (let nt : ℤ := (t : ℤ) + (u : ℤ) - 2
         let nf : ℤ := (f : ℤ) + (v : ℤ) - 2
         if 0 ≤ nt ∧ nt < (m.length : ℤ) ∧ 0 ≤ nf ∧ nf < (bins m : ℤ)
         then decide (mag (cellAt m nt.toNat nf.toNat) < mg)
         else true)

/-- The second region pass: fold over the region's cells keeping the
running (maxMagnitude, maxPeak) pair, skipping cells below the global or
local threshold, and recording a cell that is a 5x5 local maximum and
beats the running region maximum. -/
def regionScan (m : List (List ℕ)) (dynMin rAvg : ℚ)
    (cells : List (ℕ × ℕ)) : ℚ × Option PluginPeak :=
  cells.foldl
    (fun st c =>
      let mg := mag (cellAt m c.1 c.2)
      if decide (mg < dynMin) || decide (mg < rAvg * 1.1) then st
      else if isHighest m c.1 c.2 mg && decide (st.1 < mg)
      then (mg, some ⟨c.2, mg, c.1⟩)
      else st)
    (0, none)

/-- Processing of one grid region: the region is skipped unless
regionAvgMagnitude > dynamicMinMagnitude * 0.3; at most its best peak is
produced.  An empty region gives a NaN regionAvgMagnitude in JavaScript
and the energy test then fails; modelled by the explicit emptiness
check. -/
def regionPeak (m : List (List ℕ)) (dynMin : ℚ) (tr fr : ℕ) :
    Option PluginPeak :=
  if regionCells m tr fr = [] then none
  else if decide (dynMin * 0.3 < regionAvg m tr fr)
  then (regionScan m dynMin (regionAvg m tr fr) (regionCells m tr fr)).2
  else none

/-- ConstellationPlugin.findPeaks.  The guard on an empty frequencies
array returns early with this.peaks still its initial []. -/
def findPeaks (mpm : ℚ) (m : List (List ℕ)) : List PluginPeak :=
  if m.length = 0 then []
  else
    ((List.range (numRegions m)).flatMap fun tr =>
        (List.range (numRegions m)).map fun fr => (tr, fr)).filterMap
      fun r => regionPeak m (dynamicMin mpm m) r.1 r.2

end Plugin

/-! ## The FFT of src/scripts/utils/fft.js (class FFT)
An iterative radix-2 transform with an explicit bit-reversal pass.  The
interleaved output Float32Array (real at 2i, imaginary at 2i+1) is
modelled as a list of (real, imaginary) pairs indexed by i.  Components
are Option ℝ: reading input[i] beyond the input's length yields undefined,
i.e. NaN after arithmetic. -/

namespace FFTjs

/-- One complex cell of the working array. -/
abbrev JsC := Option ℝ × Option ℝ

/-- this.cosTable[i] = cos(2 * PI * i / size). -/
noncomputable def cosTable (n i : ℕ) : Option ℝ :=
  some (Real.cos (2 * Real.pi * (i : ℝ) / (n : ℝ)))

/-- this.sinTable[i] = sin(2 * PI * i / size). -/
noncomputable def sinTable (n i : ℕ) : Option ℝ :=
  some (Real.sin (2 * Real.pi * (i : ℝ) / (n : ℝ)))

/-- The swap of entries i and j of the bit-reversal pass (the code swaps
the real and imaginary components through temporaries; both reads precede
both writes, and output[i] is written first). -/
def swapAt (v : List JsC) (i j : ℕ) : List JsC :=
  (v.set i (v.getD j (none, none))).set j (v.getD i (none, none))

/-- The inner while loop updating the bit-reversed counter:
while (k <= j) { j -= k; k >>= 1 }; j += k.  In the forward pass k never
reaches 0 with k ≤ j (that would not terminate in JavaScript either, and
the loop bound i ≤ n - 2 prevents it); the guard 0 < k makes the
definition total. -/
def bitrevNext (j k : ℕ) : ℕ :=
  if h : 0 < k ∧ k ≤ j then bitrevNext (j - k) (k / 2) else j + k
termination_by k
decreasing_by omega

/-- The bit-reversal pass: for i from 0 to n - 2, swap entries i and j
when i < j, then advance j with k starting at n >> 1. -/
def bitrevPass (n : ℕ) (v : List JsC) : List JsC :=
  ((List.range (n - 1)).foldl
    (fun (s : List JsC × ℕ) i =>
      (if i < s.2 then swapAt s.1 i s.2 else s.1, bitrevNext s.2 (n / 2)))
    (v, 0)).1

/-- One butterfly of the compute loop at indices i and j = i + step, with
twiddle index pair * (n / jump) where jump = 2 * step:
t = b * (cos - i sin), then b := a - t and a := a + t (output[j] is
written before output[i]). -/
noncomputable def butterfly (n step pair i : ℕ) (v : List JsC) : List JsC :=
  let j := i + step
  let a := v.getD i (none, none)
  let b := v.getD j (none, none)
  let c := cosTable n (pair * (n / (2 * step)))
  let s := sinTable n (pair * (n / (2 * step)))
  let tR := oadd (omul b.1 c) (omul b.2 s)
  let tI := osub (omul b.2 c) (omul b.1 s)
  (v.set j (osub a.1 tR, osub a.2 tI)).set i (oadd a.1 tR, oadd a.2 tI)

/-- The group starting offsets of one stage:
for (group = 0; group < n; group += jump) with jump = 2 * step. -/
def stageGroups (n step : ℕ) : List ℕ :=
  (List.range ((n + 2 * step - 1) / (2 * step))).map (· * (2 * step))

/-- One stage of the compute loop: all groups, inside each the pairs
0 ≤ pair < step, butterfly at i = group + pair. -/
noncomputable def stagePass (n step : ℕ) (v : List JsC) : List JsC :=
  (stageGroups n step).foldl
    (fun v g => (List.range step).foldl
      (fun v p => butterfly n step p (g + p) v) v)
    v

/-- The outer compute loop: for (step = 1; step < n; step <<= 1).  The
code always enters with step = 1; the conjunct 1 ≤ step only serves
termination and holds on every call. -/
noncomputable def stagesFrom (n step : ℕ) (v : List JsC) : List JsC :=
  if h : 1 ≤ step ∧ step < n then stagesFrom n (2 * step) (stagePass n step v)
  else v
termination_by n - step
decreasing_by omega

/-- FFT.forward: copy the input into the real components (a read past the
input's end yields undefined, hence the none component), zero the
imaginary components, bit-reverse, then run the stages. -/
noncomputable def forward (n : ℕ) (input : List ℝ) : List JsC :=
  stagesFrom n 1 (bitrevPass n ((List.range n).map fun i => (input[i]?, some 0)))

end FFTjs

/-! ## The FFT private to src/scripts/visualizations/spectrogram.js
(class FFT at its bottom, lines 275-353).  Its initialize() builds a
bit-reversal table, but forward() copies the input in natural order and
never consults the table - the omission behind claim C1. -/

namespace SpectroFFT

/-- One pass of the reverse-table construction:
for (i = 0; i < limit; i++) reverseTable[i + limit] = reverseTable[i] + bit. -/
def revPass (limit bit : ℕ) (rev : List ℕ) : List ℕ :=
  (List.range limit).foldl (fun r i => r.set (i + limit) (r.getD i 0 + bit)) rev

/-- The while (limit < size) loop of initialize(), with limit doubling and
bit halving. -/
def revBuild (n limit bit : ℕ) (rev : List ℕ) : List ℕ :=
  if h : 1 ≤ limit ∧ limit < n then
    revBuild n (2 * limit) (bit / 2) (revPass limit bit rev)
  else rev
termination_by n - limit
decreasing_by omega

/-- this.reverseTable after initialize().  forward() never reads it. -/
def reverseTable (n : ℕ) : List ℕ := revBuild n 1 (n / 2) (List.replicate n 0)

/-- this.cosTable[i] = cos(-2 * PI * i / size). -/
noncomputable def cosTable (n i : ℕ) : Option ℝ :=
  some (Real.cos (-2 * Real.pi * (i : ℝ) / (n : ℝ)))

/-- this.sinTable[i] = sin(-2 * PI * i / size). -/
noncomputable def sinTable (n i : ℕ) : Option ℝ :=
  some (Real.sin (-2 * Real.pi * (i : ℝ) / (n : ℝ)))

/-- One butterfly at indices i and off = i + halfSize with the current
phase (cR, cI):
tr = cR * real[off] - cI * imag[off], ti = cR * imag[off] + cI * real[off],
then real[off] = real[i] - tr, imag[off] = imag[i] - ti,
real[i] += tr, imag[i] += ti.  The real/imag Float64Arrays are modelled
jointly as a list of pairs. -/
noncomputable def sButterfly (cR cI : Option ℝ) (halfSize i : ℕ)
    (v : List FFTjs.JsC) : List FFTjs.JsC :=
  let a := v.getD i (none, none)
  let b := v.getD (i + halfSize) (none, none)
  let tr := osub (omul cR b.1) (omul cI b.2)
  let ti := oadd (omul cR b.2) (omul cI b.1)
  (v.set (i + halfSize) (osub a.1 tr, osub a.2 ti)).set i
    (oadd a.1 tr, oadd a.2 ti)

/-- The indices of the innermost loop for a given fftStep:
for (i = fftStep; i < size; i += 2 * halfSize). -/
def innerIdx (n halfSize fftStep : ℕ) : List ℕ :=
  (List.range ((n - fftStep + 2 * halfSize - 1) / (2 * halfSize))).map
    fun m => fftStep + m * (2 * halfSize)

/-- The phase rotation after each fftStep:
(cR, cI) := (cR * psR - cI * psI, cR * psI + cI * psR) where
(psR, psI) = (cosTable[halfSize], sinTable[halfSize]). -/
noncomputable def rotate (n halfSize : ℕ) (ph : Option ℝ × Option ℝ) :
    Option ℝ × Option ℝ :=
  (osub (omul ph.1 (cosTable n halfSize)) (omul ph.2 (sinTable n halfSize)),
   oadd (omul ph.1 (sinTable n halfSize)) (omul ph.2 (cosTable n halfSize)))

/-- One halfSize level: fftStep from 0 to halfSize - 1, the inner butterfly
sweep with the current phase, then the phase rotation; the phase starts at
(1, 0). -/
noncomputable def halfPass (n halfSize : ℕ) (v : List FFTjs.JsC) :
    List FFTjs.JsC :=
  ((List.range halfSize).foldl
    (fun (s : List FFTjs.JsC × (Option ℝ × Option ℝ)) fftStep =>
      ((innerIdx n halfSize fftStep).foldl
        (fun v i => sButterfly s.2.1 s.2.2 halfSize i v) s.1,
       rotate n halfSize s.2))
    (v, (some 1, some 0))).1

/-- The outer while (halfSize < size) loop with halfSize doubling; entered
with halfSize = 1, the conjunct 1 ≤ halfSize only serves termination. -/
noncomputable def halvesFrom (n halfSize : ℕ) (v : List FFTjs.JsC) :
    List FFTjs.JsC :=
  if h : 1 ≤ halfSize ∧ halfSize < n then
    halvesFrom n (2 * halfSize) (halfPass n halfSize v)
  else v
termination_by n - halfSize
decreasing_by omega

/-- forward(buffer): real[i] = buffer[i] (NaN for a read past the buffer's
end), imag zero-initialised, then the stages - without any bit-reversal of
the input, although initialize() built reverseTable for exactly that
purpose. -/
noncomputable def forward (n : ℕ) (buffer : List ℝ) : List FFTjs.JsC :=
  halvesFrom n 1 ((List.range n).map fun i => (buffer[i]?, some 0))

end SpectroFFT

/-! ## Reference naive DFT.
Modelled from the spec: section 8 of the spec demands that forward match a
"reference/naive O(N²) DFT" on the first N/2 magnitude bins within 1e-4;
no naive DFT exists in the repository, so the textbook sum
X_k = sum_n x_n * exp(-2 pi i k n / N) is used as that reference. -/

namespace NaiveDFT

/-- Real part of bin k of the naive DFT. -/
noncomputable def re (x : List ℝ) (k : ℕ) : ℝ :=
  ∑ n ∈ Finset.range x.length,
    x.getD n 0 * Real.cos (2 * Real.pi * (k : ℝ) * (n : ℝ) / (x.length : ℝ))

/-- Imaginary part of bin k of the naive DFT. -/
noncomputable def im (x : List ℝ) (k : ℕ) : ℝ :=
  -∑ n ∈ Finset.range x.length,
    x.getD n 0 * Real.sin (2 * Real.pi * (k : ℝ) * (n : ℝ) / (x.length : ℝ))

/-- Magnitude of bin k of the naive DFT. -/
noncomputable def mag (x : List ℝ) (k : ℕ) : ℝ :=
  Real.sqrt (re x k ^ 2 + im x k ^ 2)

end NaiveDFT

/-! ## ConstellationVisualizer.processSpectrogramData
(src/scripts/visualizations/constellation.js lines 141-194; the identical
FingerprintVisualizer.processSpectrogramData of src/unnamed/part_002 lines
96-144).  Constructor constants: fftSize = 2048,
frequencyBinCount = fftSize / 2, and the method computes
hopSize = floor(fftSize / 4). -/

namespace Constellation

/-- The Hann coefficient hannWindow[i] =
0.5 * (1 - cos(2 * PI * i / (fftSize - 1))). -/
noncomputable def hann (n i : ℕ) : ℝ :=
  0.5 * (1 - Real.cos (2 * Real.pi * (i : ℝ) / ((n : ℝ) - 1)))

/-- numFrames = Math.floor((audioData.length - fftSize) / hopSize).  A
negative numerator gives a negative frame count and zero loop iterations
in JavaScript; truncated ℕ subtraction gives the same zero. -/
def numFrames (n hop : ℕ) (audio : List ℝ) : ℕ := (audio.length - n) / hop

/-- Frame i as built cell by cell:
frame[j] = audioData[i * hopSize + j] * hannWindow[j].  For i below
numFrames every read is in range, so the getD default is unreachable. -/
noncomputable def frameAt (n hop : ℕ) (audio : List ℝ) (i : ℕ) : List ℝ :=
  (List.range n).map fun j => audio.getD (i * hop + j) 0 * hann n j

/-- The decibel row of one frame: for each bin j below frequencyBinCount,
magnitude = sqrt(re * re + im * im) from the interleaved spectrum entries
2j and 2j+1 (the pair at index j of the modelled spectrum), and
decibels = 20 * log10(magnitude + 1e-6). -/
noncomputable def dbRow (n fbc : ℕ) (frame : List ℝ) : List (Option ℝ) :=
  let spectrum := FFTjs.forward n frame
  (List.range fbc).map fun j =>
    omap (fun mg => 20 * Real.logb 10 (mg + 1e-6))
      (omap Real.sqrt
        (oadd (omul (spectrum.getD j (none, none)).1
                    (spectrum.getD j (none, none)).1)
              (omul (spectrum.getD j (none, none)).2
                    (spectrum.getD j (none, none)).2)))

/-- tempData: the decibel rows of all frames, in order. -/
noncomputable def tempData (n hop fbc : ℕ) (audio : List ℝ) :
    List (List (Option ℝ)) :=
  (List.range (numFrames n hop audio)).map fun i =>
    dbRow n fbc (frameAt n hop audio i)

/-- globalMax: starts at -Infinity, then
globalMax = Math.max(globalMax, decibels) over every cell in scan order. -/
noncomputable def globalMaxDb (td : List (List (Option ℝ))) : JSV :=
  (td.flatMap id).foldl (fun a x => jsMax a (toJSV x)) JSV.ninf

/-- globalMin: starts at Infinity, then
globalMin = Math.min(globalMin, decibels) over every cell in scan order. -/
noncomputable def globalMinDb (td : List (List (Option ℝ))) : JSV :=
  (td.flatMap id).foldl (fun a x => jsMin a (toJSV x)) JSV.inf

/-- The second pass: range = globalMax - globalMin and every cell maps to
(decibels - globalMin) / range, in JavaScript arithmetic (0/0 = NaN on a
degenerate range). -/
noncomputable def spectrogramData (n hop fbc : ℕ) (audio : List ℝ) :
    List (List JSV) :=
  let td := tempData n hop fbc audio
  td.map fun row => row.map fun v =>
    jsDiv (jsSub (toJSV v) (globalMinDb td)) (jsSub (globalMaxDb td) (globalMinDb td))

/-- The pipeline at the constructor constants: fftSize = 2048,
hopSize = floor(2048 / 4), frequencyBinCount = 2048 / 2. -/
noncomputable def run (audio : List ℝ) : List (List JSV) :=
  spectrogramData 2048 (2048 / 4) (2048 / 2) audio

end Constellation

/-! ## SpectrogramVisualizer.processSpectrogramData / applyWindow
(src/scripts/visualizations/spectrogram.js lines 86-138).  Constructor
constants: fftSize = 2048, frequencyBinCount = fftSize / 2,
minDecibels = -90, maxDecibels = -20.  Unlike the constellation variant the
normalization bounds globalMax/globalMin are set to the fixed
maxDecibels/minDecibels and never updated from the data, and each decibel
value is clamped into [minDecibels, maxDecibels] first. -/

namespace SpectroVis

/-- Frame i = audioData.slice(i * hopSize, i * hopSize + fftSize). -/
def frames (n hop : ℕ) (audio : List ℝ) : List (List ℝ) :=
  (List.range (Constellation.numFrames n hop audio)).map fun i =>
    (audio.drop (i * hop)).take n

/-- applyWindow: windowed[i] = frame[i] * 0.5 * (1 - cos(2 PI i / (len-1)))
over the frame's own length. -/
noncomputable def applyWindow (frame : List ℝ) : List ℝ :=
  (List.range frame.length).map fun i =>
    frame.getD i 0 * Constellation.hann frame.length i

/-- The windowed frames handed to the FFT. -/
noncomputable def windowedFrames (n hop : ℕ) (audio : List ℝ) :
    List (List ℝ) :=
  (frames n hop audio).map applyWindow

/-- The clamped decibel row of one windowed frame:
magnitudes[j] = max(minDecibels, min(maxDecibels, 20*log10(mag + 1e-6))). -/
noncomputable def dbRowClamped (n fbc : ℕ) (minDec maxDec : ℝ)
    (wframe : List ℝ) : List (Option ℝ) :=
  let spectrum := SpectroFFT.forward n wframe
  (List.range fbc).map fun j =>
    omap (fun d => max minDec (min maxDec d))
      (omap (fun mg => 20 * Real.logb 10 (mg + 1e-6))
        (omap Real.sqrt
          (oadd (omul (spectrum.getD j (none, none)).1
                      (spectrum.getD j (none, none)).1)
                (omul (spectrum.getD j (none, none)).2
                      (spectrum.getD j (none, none)).2))))

/-- tempData: the clamped decibel rows of all frames. -/
noncomputable def dbMatrix (n : ℕ) (minDec maxDec : ℝ) (audio : List ℝ) :
    List (List (Option ℝ)) :=
  (windowedFrames n (n / 4) audio).map (dbRowClamped n (n / 2) minDec maxDec)

/-- The value normalized against the fixed bounds, before the perceptual
exponent: (magnitudes[j] - globalMin) / range with globalMin = minDecibels
and range = maxDecibels - minDecibels (never zero for the constructor
constants, so plain division). -/
noncomputable def normPreMatrix (n : ℕ) (minDec maxDec : ℝ)
    (audio : List ℝ) : List (List (Option ℝ)) :=
  (dbMatrix n minDec maxDec audio).map fun row =>
    row.map (omap fun d => (d - minDec) / (maxDec - minDec))

/-- The stored spectrogram rows: the normalized value raised to the
exponent 1.5 (Math.pow for the nonnegative bases arising here). -/
noncomputable def spectrogramData (n : ℕ) (minDec maxDec : ℝ)
    (audio : List ℝ) : List (List (Option ℝ)) :=
  (normPreMatrix n minDec maxDec audio).map fun row =>
    row.map (omap fun x => x ^ (1.5 : ℝ))

end SpectroVis

/-- Sample spectrogram matrix used by concrete witnesses: 4 frames of 16
bins, all silent except a single bright cell at time 2, frequency 2. -/
def sampleMatrix : List (List ℚ) :=
  [List.replicate 16 0, List.replicate 16 0,
   (List.replicate 16 (0:ℚ)).set 2 9, List.replicate 16 0]

/-- The zero complex cell (some 0, some 0) of the FFT working arrays. -/
def z0 : FFTjs.JsC := (some (0 : ℝ), some (0 : ℝ))

/-! ## General helper lemmas -/

/-- An invariant preserved by every step of a fold is preserved by the
fold. -/
theorem foldlInv {β σ : Type*} {P : σ → Prop} {f : σ → β → σ} {l : List β}
    {init : σ} (h0 : P init)
    (hstep : ∀ s x, x ∈ l → P s → P (f s x)) : P (l.foldl f init) := by
  induction l generalizing init with
  | nil => exact h0
  | cons a l ih =>
      exact ih (hstep _ _ (by simp) h0)
        (fun s x hx => hstep s x (List.mem_cons_of_mem _ hx))

/-- Writing the replicated value back into a replicate list changes
nothing. -/
theorem set_replicate_self {γ : Type*} (n i : ℕ) (a : γ) :
    (List.replicate n a).set i a = List.replicate n a := by
  induction n generalizing i with
  | zero => simp
  | succ n ih =>
      cases i with
      | zero => simp [List.replicate_succ]
      | succ i => simp [List.replicate_succ, ih]

/-- getD on a replicate list below its length. -/
theorem getD_replicate_of_lt {γ : Type*} {n i : ℕ} (a d : γ) (h : i < n) :
    (List.replicate n a).getD i d = a := by
  simp [List.getD_eq_getElem?_getD, List.getElem?_replicate, h]

/-- getD with the replicated value as default is that value at every
index. -/
theorem getD_replicate_self {γ : Type*} (n i : ℕ) (a : γ) :
    (List.replicate n a).getD i a = a := by
  rcases lt_or_le i n with h | h
  · exact getD_replicate_of_lt a a h
  · simp [List.getD_eq_getElem?_getD, List.getElem?_replicate, Nat.not_lt.mpr h]

/-! ## C9: empty spectrogram matrices -/

/-- Claim C9: on a spectrogram matrix with zero rows, the peak extractor
returns the empty peak list without failing, the pairing stage then
returns the empty pair list, and the adaptive plugin peak finder likewise
returns no peaks. -/
theorem empty_matrix_no_peaks (fbc nbh md : ℕ) (thr : ℝ) (z : TargetZone)
    (mpm : ℚ) :
    Constellation.findPeaks fbc nbh thr md ([] : List (List ℝ)) = []
    ∧ Constellation.createPairs z
        (Constellation.findPeaks fbc nbh thr md ([] : List (List ℝ))) = []
    ∧ Plugin.findPeaks mpm [] = [] := by
  have h1 : Constellation.findPeaks fbc nbh thr md ([] : List (List ℝ)) = [] := by
    simp [Constellation.findPeaks, Constellation.scanCells]
  refine ⟨h1, ?_, ?_⟩
  · rw [h1]
    simp [Constellation.createPairs, Constellation.pairsLoop]
  · simp [Plugin.findPeaks]

/-! ## C4: the minimum-distance invariant of findPeaks -/

/-- Claim C4: no two peaks accepted by findPeaks are within minDistance in
both the time and the frequency axis simultaneously. -/
theorem findPeaks_min_distance {α : Type} [LinearOrder α] [Inhabited α]
    (fbc nbh md : ℕ) (thr : α) (m : List (List α)) :
    List.Pairwise
      (fun p q : Peak α => ¬(|p.t - q.t| < (md : ℤ) ∧ |p.f - q.f| < (md : ℤ)))
      (Constellation.findPeaks fbc nbh thr md m) := by
  unfold Constellation.findPeaks
  apply foldlInv (P := fun acc => List.Pairwise
    (fun p q : Peak α => ¬(|p.t - q.t| < (md : ℤ) ∧ |p.f - q.f| < (md : ℤ))) acc)
  · exact List.Pairwise.nil
  · intro s x _ hP
    by_cases hc :
        (Constellation.isCand m nbh thr x.1 x.2
          && !Constellation.tooClose md s x.1 x.2) = true
    · rw [if_pos hc]
      rw [List.pairwise_append]
      refine ⟨hP, by simp, ?_⟩
      intro p hp q hq
      simp only [List.mem_singleton] at hq
      subst hq
      rw [Bool.and_eq_true, Bool.not_eq_true'] at hc
      have hnc := hc.2
      unfold Constellation.tooClose at hnc
      rw [List.any_eq_false] at hnc
      have := hnc p hp
      simp only [Bool.and_eq_true, decide_eq_true_iff, not_and] at this
      simp only [not_and]
      intro h1 h2
      rw [abs_sub_comm] at h1 h2
      exact absurd h2 (this h1)
    · rw [if_neg hc]
      exact hP

/-- Concrete instantiation of the C4 invariant on the sample matrix. -/
theorem findPeaks_min_distance_witness :
    List.Pairwise
      (fun p q : Peak ℚ => ¬(|p.t - q.t| < (3 : ℤ) ∧ |p.f - q.f| < (3 : ℤ)))
      (Constellation.findPeaks 16 1 (1/2 : ℚ) 3 sampleMatrix) :=
  findPeaks_min_distance 16 1 3 (1/2 : ℚ) sampleMatrix

/-! ## C10: the region bound of the adaptive peak finder -/

/-- The region-count expression is at most the maxRegions cap of 40. -/
theorem numRegions_le_40 (m : List (List ℕ)) : Plugin.numRegions m ≤ 40 := by
  unfold Plugin.numRegions
  split
  · omega
  · have h1 : min 40 (Int.toNat ⌊(8 : ℚ) / (Plugin.avgMag m / Plugin.maxMag m)⌋) ≤ 40 :=
      min_le_left _ _
    omega

/-- Claim C10: the adaptive peak finder accepts at most one peak per grid
region, so its peak count is at most timeRegions * freqRegions, itself at
most 40 * 40 = 1600. -/
theorem pluginFindPeaks_bound (mpm : ℚ) (m : List (List ℕ)) (hm : m ≠ []) :
    (Plugin.findPeaks mpm m).length ≤ Plugin.numRegions m * Plugin.numRegions m
    ∧ Plugin.numRegions m ≤ 40
    ∧ (Plugin.findPeaks mpm m).length ≤ 1600 := by
  have hreg : (Plugin.findPeaks mpm m).length ≤
      Plugin.numRegions m * Plugin.numRegions m := by
    unfold Plugin.findPeaks
    split
    · simp
    · refine le_trans (List.length_filterMap_le _ _) ?_
      rw [List.length_flatMap]
      have hmap : (List.map
            (fun tr => ((List.range (Plugin.numRegions m)).map fun fr => (tr, fr)).length)
            (List.range (Plugin.numRegions m)))
          = List.replicate (Plugin.numRegions m) (Plugin.numRegions m) := by
        rw [List.eq_replicate_iff]
        constructor
        · simp
        · intro b hb
          rcases List.mem_map.mp hb with ⟨tr, _, rfl⟩
          simp
      rw [Function.comp_def, hmap, List.sum_replicate, smul_eq_mul]
  refine ⟨hreg, numRegions_le_40 m, ?_⟩
  calc (Plugin.findPeaks mpm m).length
      ≤ Plugin.numRegions m * Plugin.numRegions m := hreg
    _ ≤ 40 * 40 := Nat.mul_le_mul (numRegions_le_40 m) (numRegions_le_40 m)

/-- Concrete instantiation of the C10 bound. -/
theorem pluginFindPeaks_bound_witness :
    (Plugin.findPeaks (3/10) [[1]]).length ≤ 1600 :=
  (pluginFindPeaks_bound (3/10) [[1]] (by simp)).2.2

/-! ## C2: the pairing operation -/

/-- A member of takeWhile p l is a member of l. -/
theorem takeWhile_mem {γ : Type*} (p : γ → Bool) (l : List γ) (b : γ)
    (hb : b ∈ l.takeWhile p) : b ∈ l := by
  induction l with
  | nil => simpa using hb
  | cons c l ih =>
      rw [List.takeWhile_cons] at hb
      split at hb
      · rcases List.mem_cons.mp hb with rfl | h
        · exact List.mem_cons_self _ _
        · exact List.mem_cons_of_mem _ (ih h)
      · simp at hb

/-- In a list sorted by time, a member whose dt to the anchor does not
exceed the break bound survives the takeWhile of the look-ahead scan
(every earlier element has a smaller or equal time, hence also within the
bound). -/
theorem mem_takeWhile_of_sorted {α : Type} (A D : ℤ) (l : List (Peak α))
    (hs : List.Sorted Peak.byT l) (b : Peak α) (hb : b ∈ l)
    (hbD : b.t - A ≤ D) :
    b ∈ l.takeWhile fun tgt => decide (tgt.t - A ≤ D) := by
  induction l with
  | nil => cases hb
  | cons c l ih =>
      rw [List.sorted_cons] at hs
      rcases List.mem_cons.mp hb with rfl | hb'
      · rw [List.takeWhile_cons, if_pos (by simpa using hbD)]
        exact List.mem_cons_self _ _
      · have hcb : c.t ≤ b.t := hs.1 b hb'
        rw [List.takeWhile_cons, if_pos (by simp; omega)]
        exact List.mem_cons_of_mem _ (ih hs.2 hb')

/-- Membership in the anchor look-ahead loop over a sorted peak list, for
a positive minimum time gap: (a, b) is produced iff a occurs in the list,
b occurs in it, and (a, b) satisfies the target-zone bounds with b
strictly later. -/
theorem mem_pairsLoop_iff {α : Type} (z : TargetZone) (hz : 1 ≤ z.minDt)
    (l : List (Peak α)) (hs : List.Sorted Peak.byT l) (a b : Peak α) :
    (a, b) ∈ Constellation.pairsLoop z l ↔
      a ∈ l ∧ b ∈ l ∧ a.t < b.t ∧ z.minDt ≤ b.t - a.t
        ∧ b.t - a.t ≤ z.maxDt ∧ |b.f - a.f| ≤ z.maxDf := by
  induction l with
  | nil => simp [Constellation.pairsLoop]
  | cons c l ih =>
      rw [List.sorted_cons] at hs
      constructor
      · intro hmem
        rcases List.mem_append.mp hmem with hhead | htail
        · unfold Constellation.pairsFromAnchor at hhead
          rcases List.mem_map.mp hhead with ⟨tgt, htgt, heq⟩
          have ha : a = c := (Prod.ext_iff.mp heq.symm).1
          have hb : b = tgt := (Prod.ext_iff.mp heq.symm).2
          subst ha; subst hb
          rcases List.mem_filter.mp htgt with ⟨htw, hpred⟩
          have hbl : b ∈ l := takeWhile_mem _ l b htw
          have hmaxDt : b.t - a.t ≤ z.maxDt := by
            have := List.mem_takeWhile_imp htw
            simpa using this
          simp only [Bool.and_eq_true, decide_eq_true_iff] at hpred
          exact ⟨List.mem_cons_self _ _, List.mem_cons_of_mem _ hbl,
            by omega, hpred.1, hmaxDt, hpred.2⟩
        · rcases (ih hs.2).mp htail with ⟨ha, hb, h1, h2, h3, h4⟩
          exact ⟨List.mem_cons_of_mem _ ha, List.mem_cons_of_mem _ hb,
            h1, h2, h3, h4⟩
      · rintro ⟨ha, hb, h1, h2, h3, h4⟩
        rcases List.mem_cons.mp ha with rfl | ha'
        · -- the head is the anchor
          have hbl : b ∈ l := by
            rcases List.mem_cons.mp hb with rfl | hb'
            · omega
            · exact hb'
          apply List.mem_append.mpr
          left
          unfold Constellation.pairsFromAnchor
          apply List.mem_map.mpr
          refine ⟨b, ?_, rfl⟩
          apply List.mem_filter.mpr
          refine ⟨mem_takeWhile_of_sorted a.t z.maxDt l hs.2 b hbl h3, ?_⟩
          simp only [Bool.and_eq_true, decide_eq_true_iff]
          exact ⟨h2, h4⟩
        · -- the anchor occurs in the tail; so does b
          have hbl : b ∈ l := by
            rcases List.mem_cons.mp hb with rfl | hb'
            · exact absurd (hs.1 a ha') (by unfold Peak.byT; omega)
            · exact hb'
          exact List.mem_append.mpr (Or.inr
            ((ih hs.2).mpr ⟨ha', hbl, h1, h2, h3, h4⟩))

/-- Claim C2 (amended: minDt at least 1, as in every configuration in the
repository): the batch pairing outputs exactly the ordered pairs of peaks
with anchor strictly earlier that satisfy the target-zone bounds, and the
single-anchor pairing of the fingerprint visualizer outputs exactly the
targets of its anchor satisfying those bounds. -/
theorem createPairs_characterization {α : Type} (z : TargetZone)
    (hz : 1 ≤ z.minDt) (peaks : List (Peak α)) (a b : Peak α) :
    ((a, b) ∈ Constellation.createPairs z peaks ↔
      a ∈ peaks ∧ b ∈ peaks ∧ a.t < b.t ∧ z.minDt ≤ b.t - a.t
        ∧ b.t - a.t ≤ z.maxDt ∧ |b.f - a.f| ≤ z.maxDf)
    ∧ ((a, b) ∈ Fingerprint.pairsForAnchor z a peaks ↔
      b ∈ peaks ∧ z.minDt ≤ b.t - a.t ∧ b.t - a.t ≤ z.maxDt
        ∧ |b.f - a.f| ≤ z.maxDf) := by
  constructor
  · unfold Constellation.createPairs
    rw [mem_pairsLoop_iff z hz _ (List.sorted_insertionSort Peak.byT peaks) a b]
    rw [(List.perm_insertionSort Peak.byT peaks).mem_iff,
      (List.perm_insertionSort Peak.byT peaks).mem_iff]
  · unfold Fingerprint.pairsForAnchor
    constructor
    · intro hmem
      rcases List.mem_map.mp hmem with ⟨tgt, htgt, heq⟩
      have hb : b = tgt := (Prod.ext_iff.mp heq.symm).2
      subst hb
      rcases List.mem_filter.mp htgt with ⟨hbl, hpred⟩
      simp only [Bool.and_eq_true, decide_eq_true_iff] at hpred
      exact ⟨hbl, hpred.1.1, hpred.1.2, hpred.2⟩
    · rintro ⟨hb, h2, h3, h4⟩
      apply List.mem_map.mpr
      refine ⟨b, List.mem_filter.mpr ⟨hb, ?_⟩, rfl⟩
      simp only [Bool.and_eq_true, decide_eq_true_iff]
      exact ⟨⟨h2, h3⟩, h4⟩

/-- The C2 characterization at the spec's own end-to-end scenario: peaks
(10, 30) and (40, 60) with target zone (5, 100, 50) produce exactly the
pair anchored at (10, 30). -/
theorem createPairs_characterization_witness :
    ((⟨10, 30, (0:ℚ)⟩ : Peak ℚ), (⟨40, 60, (0:ℚ)⟩ : Peak ℚ)) ∈
      Constellation.createPairs ⟨5, 100, 50⟩
        [⟨10, 30, (0:ℚ)⟩, ⟨40, 60, (0:ℚ)⟩] :=
  ((createPairs_characterization ⟨5, 100, 50⟩ (by norm_num)
    [⟨10, 30, (0:ℚ)⟩, ⟨40, 60, (0:ℚ)⟩] _ _).1).mpr (by decide)

/-- Counterexample to C2 as frozen: with minDt = 0 (the claim quantifies
over every target zone) and two peaks sharing a time index, createPairs
emits a pair whose anchor and target have equal time indices, which the
claimed output set (requiring anchor.timeIndex < target.timeIndex)
excludes. -/
theorem createPairs_equal_time_cex :
    Constellation.createPairs ⟨0, 100, 50⟩
        [(⟨0, 0, (0:ℚ)⟩ : Peak ℚ), ⟨0, 1, (0:ℚ)⟩] =
      [((⟨0, 0, (0:ℚ)⟩ : Peak ℚ), (⟨0, 1, (0:ℚ)⟩ : Peak ℚ))]
    ∧ ((⟨0, 0, (0:ℚ)⟩ : Peak ℚ)).t = ((⟨0, 1, (0:ℚ)⟩ : Peak ℚ)).t := by
  constructor
  · decide
  · rfl

/-! ## C3: the scanned region and the candidate condition -/

/-- Membership in the scan order: exactly the cells outside a
neighborhood-wide border of the scanned region, whose frequency bins are
the lower quarter [0, frequencyBinCount / 4). -/
theorem mem_scanCells_iff (nF nB nbh t f : ℕ) :
    (t, f) ∈ Constellation.scanCells nF nB nbh ↔
      nbh ≤ t ∧ t + nbh < nF ∧ nbh ≤ f ∧ f + nbh < nB := by
  unfold Constellation.scanCells
  simp only [List.mem_flatMap, List.mem_map, List.mem_range']
  constructor
  · rintro ⟨t', ⟨i, hi, rfl⟩, ⟨f', ⟨j, hj, rfl⟩, heq⟩⟩
    have h1 : nbh + 1 * i = t := (Prod.ext_iff.mp heq).1
    have h2 : nbh + 1 * j = f := (Prod.ext_iff.mp heq).2
    omega
  · rintro ⟨h1, h2, h3, h4⟩
    exact ⟨t, ⟨t - nbh, by omega, by omega⟩, ⟨f, ⟨f - nbh, by omega, by omega⟩, rfl⟩⟩

/-- The candidate test holds iff the cell strictly dominates every other
cell of its square neighborhood and is not below the threshold. -/
theorem isCand_iff {α : Type} [LinearOrder α] [Inhabited α]
    (m : List (List α)) (nbh : ℕ) (thr : α) (t f : ℕ) :
    Constellation.isCand m nbh thr t f = true ↔
      ((∀ u : ℕ, u ≤ 2 * nbh → ∀ v : ℕ, v ≤ 2 * nbh → ¬(u = nbh ∧ v = nbh) →
          Constellation.cell m (t + u - nbh) (f + v - nbh) <
            Constellation.cell m t f)
        ∧ thr ≤ Constellation.cell m t f) := by
  unfold Constellation.isCand
  simp only [Bool.and_eq_true, List.all_eq_true, List.mem_range,
    Bool.or_eq_true, decide_eq_true_iff, Bool.not_eq_true',
    decide_eq_false_iff_not, not_lt]
  constructor
  · rintro ⟨hall, hthr⟩
    refine ⟨?_, hthr⟩
    intro u hu v hv hne
    rcases hall u (by omega) v (by omega) with h | h
    · exact absurd h hne
    · exact h
  · rintro ⟨hall, hthr⟩
    refine ⟨?_, hthr⟩
    intro u hu v hv
    by_cases hc : u = nbh ∧ v = nbh
    · exact Or.inl hc
    · exact Or.inr (hall u (by omega) v (by omega) hc)

/-- Claim C3: every accepted peak arises from a scanned cell passing the
candidate test - in particular its frequency bin lies in the lower
quarter [0, frequencyBinCount / 4) - and a cell is scanned and passes the
candidate test iff it lies outside a neighborhood-wide border of the
scanned region, strictly dominates its square neighborhood, and reaches
the magnitude threshold. -/
theorem findPeaks_scan_characterization {α : Type} [LinearOrder α]
    [Inhabited α] (m : List (List α)) (fbc nbh md : ℕ) (thr : α) :
    (∀ p ∈ Constellation.findPeaks fbc nbh thr md m, ∃ t f : ℕ,
        p = ⟨(t : ℤ), (f : ℤ), Constellation.cell m t f⟩
        ∧ (t, f) ∈ Constellation.scanCells m.length (fbc / 4) nbh
        ∧ Constellation.isCand m nbh thr t f = true)
    ∧ (∀ t f : ℕ,
        ((t, f) ∈ Constellation.scanCells m.length (fbc / 4) nbh
          ∧ Constellation.isCand m nbh thr t f = true) ↔
        (nbh ≤ t ∧ t + nbh < m.length ∧ nbh ≤ f ∧ f + nbh < fbc / 4
          ∧ (∀ u : ℕ, u ≤ 2 * nbh → ∀ v : ℕ, v ≤ 2 * nbh →
              ¬(u = nbh ∧ v = nbh) →
              Constellation.cell m (t + u - nbh) (f + v - nbh) <
                Constellation.cell m t f)
          ∧ thr ≤ Constellation.cell m t f)) := by
  constructor
  · unfold Constellation.findPeaks
    refine foldlInv (P := fun acc => ∀ p ∈ acc, ∃ t f : ℕ,
      p = Peak.mk (t : ℤ) (f : ℤ) (Constellation.cell m t f)
      ∧ (t, f) ∈ Constellation.scanCells m.length (fbc / 4) nbh
      ∧ Constellation.isCand m nbh thr t f = true) ?_ ?_
    · simp
    · intro s x hx hP
      by_cases hc :
          (Constellation.isCand m nbh thr x.1 x.2
            && !Constellation.tooClose md s x.1 x.2) = true
      · rw [if_pos hc]
        intro p hp
        rcases List.mem_append.mp hp with hold | hnew
        · exact hP p hold
        · rcases List.mem_singleton.mp hnew with rfl
          rw [Bool.and_eq_true] at hc
          exact ⟨x.1, x.2, rfl, by simpa using hx, hc.1⟩
      · rw [if_neg hc]
        exact hP
  · intro t f
    rw [mem_scanCells_iff, isCand_iff]
    constructor
    · rintro ⟨⟨h1, h2, h3, h4⟩, h5, h6⟩
      exact ⟨h1, h2, h3, h4, h5, h6⟩
    · rintro ⟨h1, h2, h3, h4, h5, h6⟩
      exact ⟨⟨h1, h2, h3, h4⟩, h5, h6⟩

/-- The C3 characterization at a concrete matrix: the bright cell (2, 2)
of the sample matrix is scanned and passes the candidate test. -/
theorem findPeaks_scan_characterization_witness :
    (2, 2) ∈ Constellation.scanCells sampleMatrix.length (16 / 4) 1
    ∧ Constellation.isCand sampleMatrix 1 (1 : ℚ) 2 2 = true :=
  ((findPeaks_scan_characterization sampleMatrix 16 1 3 (1 : ℚ)).2 2 2).mpr
    (by decide)

/-! ## C8: the forward transforms never validate their input length -/

/-- The bit-reversal swap preserves the working array's length. -/
theorem swapAt_length (v : List FFTjs.JsC) (i j : ℕ) :
    (FFTjs.swapAt v i j).length = v.length := by
  simp [FFTjs.swapAt]

/-- A butterfly preserves the working array's length. -/
theorem butterfly_length (n step pair i : ℕ) (v : List FFTjs.JsC) :
    (FFTjs.butterfly n step pair i v).length = v.length := by
  simp [FFTjs.butterfly]

/-- A whole stage preserves the working array's length. -/
theorem stagePass_length (n step : ℕ) (v : List FFTjs.JsC) :
    (FFTjs.stagePass n step v).length = v.length := by
  unfold FFTjs.stagePass
  refine foldlInv (P := fun w : List FFTjs.JsC => w.length = v.length) rfl ?_
  intro s g _ hs
  refine foldlInv (P := fun w : List FFTjs.JsC => w.length = v.length) hs ?_
  intro s' p _ hs'
  rw [butterfly_length]
  exact hs'

/-- The bit-reversal pass preserves the working array's length. -/
theorem bitrevPass_length (n : ℕ) (v : List FFTjs.JsC) :
    (FFTjs.bitrevPass n v).length = v.length := by
  unfold FFTjs.bitrevPass
  refine foldlInv (P := fun s : List FFTjs.JsC × ℕ => s.1.length = v.length)
    rfl ?_
  intro s i _ hs
  dsimp only
  split
  · rw [swapAt_length]; exact hs
  · exact hs

/-- All stages preserve the working array's length. -/
theorem stagesFrom_length (n step : ℕ) (v : List FFTjs.JsC) :
    (FFTjs.stagesFrom n step v).length = v.length := by
  rw [FFTjs.stagesFrom]
  split
  · rw [stagesFrom_length n (2 * step), stagePass_length]
  · rfl
termination_by n - step
decreasing_by omega

/-- fft.js forward always returns n complex outputs, whatever the input's
length. -/
theorem fftjs_forward_length (n : ℕ) (input : List ℝ) :
    (FFTjs.forward n input).length = n := by
  unfold FFTjs.forward
  rw [stagesFrom_length, bitrevPass_length]
  simp

/-- A spectrogram.js butterfly preserves the working array's length. -/
theorem sButterfly_length (cR cI : Option ℝ) (h i : ℕ) (v : List FFTjs.JsC) :
    (SpectroFFT.sButterfly cR cI h i v).length = v.length := by
  simp [SpectroFFT.sButterfly]

/-- A spectrogram.js halfSize level preserves the working array's length. -/
theorem halfPass_length (n h : ℕ) (v : List FFTjs.JsC) :
    (SpectroFFT.halfPass n h v).length = v.length := by
  unfold SpectroFFT.halfPass
  refine foldlInv
    (P := fun s : List FFTjs.JsC × (Option ℝ × Option ℝ) =>
      s.1.length = v.length) rfl ?_
  intro s fs _ hs
  dsimp only
  refine foldlInv (P := fun w : List FFTjs.JsC => w.length = v.length) hs ?_
  intro s' i _ hs'
  rw [sButterfly_length]
  exact hs'

/-- All spectrogram.js stages preserve the working array's length. -/
theorem halvesFrom_length (n h : ℕ) (v : List FFTjs.JsC) :
    (SpectroFFT.halvesFrom n h v).length = v.length := by
  rw [SpectroFFT.halvesFrom]
  split
  · rw [halvesFrom_length n (2 * h), halfPass_length]
  · rfl
termination_by n - h
decreasing_by omega

/-- The spectrogram.js forward always returns n complex outputs, whatever
the input's length. -/
theorem spectroFFT_forward_length (n : ℕ) (buffer : List ℝ) :
    (SpectroFFT.forward n buffer).length = n := by
  unfold SpectroFFT.forward
  rw [halvesFrom_length]
  simp

/-- Claim C8 (amended): neither forward transform validates its input
length or raises; both are total and return an output of N complex values
for every input, a too-short input merely contributing NaN (undefined)
components.  The original claim's InvalidFrameSize failure does not exist
in the code. -/
theorem forward_no_validation (n : ℕ) (input : List ℝ) :
    (FFTjs.forward n input).length = n
    ∧ (SpectroFFT.forward n input).length = n :=
  ⟨fftjs_forward_length n input, spectroFFT_forward_length n input⟩

/-- Counterexample to C8 as frozen: a length-2 input handed to a size-4
forward is not rejected with an InvalidFrameSize error - the call returns
a normal 4-point spectrum. -/
theorem forward_wrong_length_cex :
    (FFTjs.forward 4 [(1 : ℝ), 0]).length = 4
    ∧ ([(1 : ℝ), 0]).length = 2 :=
  ⟨fftjs_forward_length 4 [(1 : ℝ), 0], rfl⟩

/-! ## C1: the spectrogram.js FFT misses its bit-reversal -/

/-- cosTable[1] of the size-4 instance: cos(-pi/2) = 0. -/
theorem spectro_cos_4_1 : SpectroFFT.cosTable 4 1 = some 0 := by
  unfold SpectroFFT.cosTable
  congr 1
  rw [show (-2 * Real.pi * ((1 : ℕ) : ℝ) / ((4 : ℕ) : ℝ)) = -(Real.pi / 2) by
    push_cast; ring]
  rw [Real.cos_neg, Real.cos_pi_div_two]

/-- sinTable[1] of the size-4 instance: sin(-pi/2) = -1. -/
theorem spectro_sin_4_1 : SpectroFFT.sinTable 4 1 = some (-1) := by
  unfold SpectroFFT.sinTable
  congr 1
  rw [show (-2 * Real.pi * ((1 : ℕ) : ℝ) / ((4 : ℕ) : ℝ)) = -(Real.pi / 2) by
    push_cast; ring]
  rw [Real.sin_neg, Real.sin_pi_div_two]

/-- cosTable[2] of the size-4 instance: cos(-pi) = -1. -/
theorem spectro_cos_4_2 : SpectroFFT.cosTable 4 2 = some (-1) := by
  unfold SpectroFFT.cosTable
  congr 1
  rw [show (-2 * Real.pi * ((2 : ℕ) : ℝ) / ((4 : ℕ) : ℝ)) = -Real.pi by
    push_cast; ring]
  rw [Real.cos_neg, Real.cos_pi]

/-- sinTable[2] of the size-4 instance: sin(-pi) = 0. -/
theorem spectro_sin_4_2 : SpectroFFT.sinTable 4 2 = some 0 := by
  unfold SpectroFFT.sinTable
  congr 1
  rw [show (-2 * Real.pi * ((2 : ℕ) : ℝ) / ((4 : ℕ) : ℝ)) = -Real.pi by
    push_cast; ring]
  rw [Real.sin_neg, Real.sin_pi, neg_zero]

/-- The spectrogram.js forward at size 4 on input [1, 2, 0, 0]: because
the input is taken in natural order, the result is the DFT of the
bit-reversed sequence [1, 0, 2, 0], namely [3, -1, 3, -1]. -/
theorem spectroFFT_4_eval :
    SpectroFFT.forward 4 [(1 : ℝ), 2, 0, 0] =
      [(some 3, some 0), (some (-1), some 0),
       (some 3, some 0), (some (-1), some 0)] := by
  unfold SpectroFFT.forward
  rw [show (List.range 4).map
        (fun i => (([(1 : ℝ), 2, 0, 0])[i]?, some (0 : ℝ)))
      = [(some 1, some 0), (some 2, some 0),
         (some 0, some 0), (some 0, some 0)] from rfl]
  rw [SpectroFFT.halvesFrom, dif_pos (by norm_num : (1 : ℕ) ≤ 1 ∧ 1 < 4)]
  have h1 : SpectroFFT.halfPass 4 1
      [(some (1 : ℝ), some (0 : ℝ)), (some 2, some 0),
       (some 0, some 0), (some 0, some 0)] =
      [(some 3, some 0), (some (-1), some 0),
       (some 0, some 0), (some 0, some 0)] := by
    unfold SpectroFFT.halfPass SpectroFFT.innerIdx SpectroFFT.sButterfly
    simp [oadd, osub, omul, List.range_succ, spectro_cos_4_1, spectro_sin_4_1]
    norm_num
  rw [h1]
  rw [SpectroFFT.halvesFrom, dif_pos (by norm_num : (1 : ℕ) ≤ 2 * 1 ∧ 2 * 1 < 4)]
  rw [SpectroFFT.halvesFrom, dif_neg (by norm_num : ¬((1 : ℕ) ≤ 2 * (2 * 1) ∧ 2 * (2 * 1) < 4))]
  unfold SpectroFFT.halfPass SpectroFFT.innerIdx SpectroFFT.sButterfly
    SpectroFFT.rotate
  simp [oadd, osub, omul, List.range_succ, spectro_cos_4_2, spectro_sin_4_2]

/-- Real part of bin 1 of the reference DFT of [1, 2, 0, 0]:
1*cos 0 + 2*cos(pi/2) = 1. -/
theorem naiveDFT_re_4_1 : NaiveDFT.re [(1 : ℝ), 2, 0, 0] 1 = 1 := by
  unfold NaiveDFT.re
  rw [show ([(1 : ℝ), 2, 0, 0]).length = 4 from rfl]
  rw [Finset.sum_range_succ, Finset.sum_range_succ, Finset.sum_range_succ,
    Finset.sum_range_one]
  simp only [List.getD_cons_zero, List.getD_cons_succ]
  push_cast
  rw [show (2 * Real.pi * 1 * 1 / 4 : ℝ) = Real.pi / 2 by ring]
  rw [show (2 * Real.pi * 1 * 0 / 4 : ℝ) = 0 by ring]
  rw [Real.cos_pi_div_two, Real.cos_zero]
  ring

/-- Imaginary part of bin 1 of the reference DFT of [1, 2, 0, 0]:
-(1*sin 0 + 2*sin(pi/2)) = -2. -/
theorem naiveDFT_im_4_1 : NaiveDFT.im [(1 : ℝ), 2, 0, 0] 1 = -2 := by
  unfold NaiveDFT.im
  rw [show ([(1 : ℝ), 2, 0, 0]).length = 4 from rfl]
  rw [Finset.sum_range_succ, Finset.sum_range_succ, Finset.sum_range_succ,
    Finset.sum_range_one]
  simp only [List.getD_cons_zero, List.getD_cons_succ]
  push_cast
  rw [show (2 * Real.pi * 1 * 1 / 4 : ℝ) = Real.pi / 2 by ring]
  rw [show (2 * Real.pi * 1 * 0 / 4 : ℝ) = 0 by ring]
  rw [Real.sin_pi_div_two, Real.sin_zero]
  ring

/-- Magnitude of bin 1 of the reference DFT of [1, 2, 0, 0]. -/
theorem naiveDFT_mag_4_1 : NaiveDFT.mag [(1 : ℝ), 2, 0, 0] 1 = Real.sqrt 5 := by
  unfold NaiveDFT.mag
  rw [naiveDFT_re_4_1, naiveDFT_im_4_1]
  norm_num

/-- Claim C1 (code bug): at size N = 4 the spectrogram.js forward maps
[1, 2, 0, 0] to bin-1 value (-1, 0) of magnitude sqrt 1 = 1, while the
reference naive DFT's bin-1 magnitude is sqrt 5; the difference exceeds
the 1e-4 tolerance by four orders of magnitude.  (forward omits the
bit-reversal permutation that initialize() precomputed.) -/
theorem spectroFFT_not_dft :
    (SpectroFFT.forward 4 [(1 : ℝ), 2, 0, 0]).getD 1 (none, none) =
      (some (-1), some 0)
    ∧ NaiveDFT.mag [(1 : ℝ), 2, 0, 0] 1 = Real.sqrt 5
    ∧ (1e-4 : ℝ) <
        |Real.sqrt (((-1 : ℝ)) ^ 2 + (0 : ℝ) ^ 2) - NaiveDFT.mag [(1 : ℝ), 2, 0, 0] 1| := by
  refine ⟨?_, naiveDFT_mag_4_1, ?_⟩
  · rw [spectroFFT_4_eval]
    rfl
  · rw [naiveDFT_mag_4_1]
    rw [show (((-1 : ℝ)) ^ 2 + (0 : ℝ) ^ 2) = 1 by norm_num, Real.sqrt_one]
    have h2 : (2 : ℝ) < Real.sqrt 5 := by
      have h4 : Real.sqrt 4 < Real.sqrt 5 :=
        Real.sqrt_lt_sqrt (by norm_num) (by norm_num)
      rw [show (4 : ℝ) = 2 ^ 2 by norm_num, Real.sqrt_sq (by norm_num)] at h4
      exact h4
    rw [abs_sub_comm, abs_of_nonneg (by linarith)]
    linarith [show (1e-4 : ℝ) < 1 by norm_num]

/-! ## Zero propagation through the fft.js transform -/

/-- Exact iteration count of a strided loop whose stride divides the
bound. -/
theorem ceil_div_of_dvd (n d : ℕ) (hd : 0 < d) (hdvd : d ∣ n) :
    (n + d - 1) / d = n / d := by
  obtain ⟨K, rfl⟩ := hdvd
  rcases Nat.eq_zero_or_pos K with rfl | hK
  · have h1 : d * 0 + d - 1 = d - 1 := by omega
    rw [h1, Nat.div_eq_of_lt (by omega), Nat.mul_zero, Nat.zero_div]
  · have h1 : d * K + d - 1 = d * K + (d - 1) := by omega
    rw [h1, Nat.mul_add_div hd, Nat.div_eq_of_lt (by omega),
      Nat.mul_div_cancel_left _ hd]
    omega

/-- Every butterfly of a stage acts strictly inside the working array. -/
theorem stageGroups_bound (n step g p : ℕ) (hs : 0 < step)
    (hdvd : 2 * step ∣ n) (hg : g ∈ FFTjs.stageGroups n step)
    (hp : p < step) : g + p + step < n := by
  unfold FFTjs.stageGroups at hg
  rcases List.mem_map.mp hg with ⟨m, hm, rfl⟩
  rw [List.mem_range, ceil_div_of_dvd n (2 * step) (by omega) hdvd] at hm
  have h1 : (m + 1) * (2 * step) ≤ (n / (2 * step)) * (2 * step) :=
    Nat.mul_le_mul_right _ hm
  rw [Nat.div_mul_cancel hdvd] at h1
  have h2 : m * (2 * step) + 2 * step ≤ n := by
    calc m * (2 * step) + 2 * step = (m + 1) * (2 * step) := by ring
      _ ≤ n := h1
  omega

/-- A butterfly inside the array maps all-zero data to all-zero data. -/
theorem butterfly_zero (n step pair i : ℕ) (hij : i + step < n) :
    FFTjs.butterfly n step pair i (List.replicate n z0) =
      List.replicate n z0 := by
  unfold FFTjs.butterfly
  dsimp only
  rw [getD_replicate_of_lt _ _ (by omega : i < n),
    getD_replicate_of_lt _ _ hij]
  simp [z0, FFTjs.cosTable, FFTjs.sinTable, omul, oadd, osub,
    set_replicate_self]

/-- A whole stage maps all-zero data to all-zero data. -/
theorem stagePass_zero (n step : ℕ) (hs : 0 < step) (hdvd : 2 * step ∣ n) :
    FFTjs.stagePass n step (List.replicate n z0) = List.replicate n z0 := by
  unfold FFTjs.stagePass
  refine foldlInv (P := fun w : List FFTjs.JsC => w = List.replicate n z0)
    rfl ?_
  intro v g hg hv
  refine foldlInv (P := fun w : List FFTjs.JsC => w = List.replicate n z0)
    hv ?_
  intro w p hp hw
  rw [hw]
  exact butterfly_zero n step p (g + p)
    (stageGroups_bound n step g p hs hdvd hg (List.mem_range.mp hp))

/-- All stages map all-zero data to all-zero data (power-of-two sizes). -/
theorem stagesFrom_zero (k a : ℕ) (hak : a ≤ k) :
    FFTjs.stagesFrom (2 ^ k) (2 ^ a) (List.replicate (2 ^ k) z0) =
      List.replicate (2 ^ k) z0 := by
  rw [FFTjs.stagesFrom]
  split
  · next h =>
    have hlt : a < k := (Nat.pow_lt_pow_iff_right (by norm_num)).mp h.2
    have hdvd : 2 * 2 ^ a ∣ 2 ^ k := by
      rw [show 2 * 2 ^ a = 2 ^ (a + 1) by ring]
      exact pow_dvd_pow 2 hlt
    rw [stagePass_zero _ _ (by positivity) hdvd]
    rw [show 2 * 2 ^ a = 2 ^ (a + 1) by ring]
    exact stagesFrom_zero k (a + 1) hlt
  · rfl
termination_by k - a
decreasing_by omega

/-- The bit-reversed counter stays inside the array. -/
theorem bitrevNext_lt (n k j : ℕ) (hn2 : 2 * (n / 2) = n) (hj : j < n)
    (hk : 2 * k ≤ n) : FFTjs.bitrevNext j k < n := by
  rw [FFTjs.bitrevNext]
  split
  · next h => exact bitrevNext_lt n (k / 2) (j - k) hn2 (by omega) (by omega)
  · next h => omega
termination_by k
decreasing_by omega

/-- An in-range swap maps all-zero data to all-zero data. -/
theorem swapAt_zero (n i j : ℕ) (hi : i < n) (hj : j < n) :
    FFTjs.swapAt (List.replicate n z0) i j = List.replicate n z0 := by
  unfold FFTjs.swapAt
  rw [getD_replicate_of_lt _ _ hj, getD_replicate_of_lt _ _ hi,
    set_replicate_self, set_replicate_self]

/-- The bit-reversal pass maps all-zero data to all-zero data (even
sizes). -/
theorem bitrevPass_zero (n : ℕ) (hn2 : 2 * (n / 2) = n) (hn : 0 < n) :
    FFTjs.bitrevPass n (List.replicate n z0) = List.replicate n z0 := by
  unfold FFTjs.bitrevPass
  refine (foldlInv
    (P := fun s : List FFTjs.JsC × ℕ => s.1 = List.replicate n z0 ∧ s.2 < n)
    ⟨rfl, hn⟩ ?_).1
  intro s i _ hs
  dsimp only
  refine ⟨?_, bitrevNext_lt n (n / 2) s.2 hn2 hs.2 (by omega)⟩
  split
  · next hlt => rw [hs.1]; exact swapAt_zero n i s.2 (by omega) hs.2
  · exact hs.1

/-- The fft.js forward of an all-zero signal frame is identically zero. -/
theorem fftjs_forward_zero (k L : ℕ) (hk : 0 < k) (hL : 2 ^ k ≤ L) :
    FFTjs.forward (2 ^ k) (List.replicate L 0) = List.replicate (2 ^ k) z0 := by
  unfold FFTjs.forward
  have hinit : (List.range (2 ^ k)).map
      (fun i => ((List.replicate L (0 : ℝ))[i]?, some (0 : ℝ)))
      = List.replicate (2 ^ k) z0 := by
    rw [List.eq_replicate_iff]
    refine ⟨by simp, ?_⟩
    intro b hb
    rcases List.mem_map.mp hb with ⟨i, hi, rfl⟩
    rw [List.mem_range] at hi
    rw [List.getElem?_replicate, if_pos (by omega)]
    rfl
  have hdvd : (2 : ℕ) ∣ 2 ^ k := dvd_pow_self 2 (by omega)
  rw [hinit, bitrevPass_zero _ (Nat.mul_div_cancel' hdvd) (by positivity)]
  have h0 := stagesFrom_zero k 0 (Nat.zero_le k)
  rw [pow_zero] at h0
  exact h0

/-! ## Zero propagation through the spectrogram.js transform -/

/-- Exact iteration count of the innermost loop for a given fftStep. -/
theorem sub_ceil_div_of_dvd (n d fs : ℕ) (hd : 0 < d) (hdvd : d ∣ n)
    (hfs : fs < d) : (n - fs + d - 1) / d = n / d := by
  obtain ⟨K, rfl⟩ := hdvd
  rcases Nat.eq_zero_or_pos K with rfl | hK
  · rw [Nat.mul_zero, Nat.zero_div,
      show (0 - fs + d - 1) = d - 1 by omega]
    exact Nat.div_eq_of_lt (by omega)
  · have hdK : d ≤ d * K := Nat.le_mul_of_pos_right d hK
    rw [show d * K - fs + d - 1 = d * K + (d - 1 - fs) by omega,
      Nat.mul_add_div hd, Nat.div_eq_of_lt (by omega),
      Nat.mul_div_cancel_left _ hd]
    omega

/-- Every spectrogram.js butterfly acts strictly inside the working
array. -/
theorem innerIdx_bound (n h fs i : ℕ) (hh : 0 < h) (hdvd : 2 * h ∣ n)
    (hfs : fs < h) (hi : i ∈ SpectroFFT.innerIdx n h fs) : i + h < n := by
  unfold SpectroFFT.innerIdx at hi
  rcases List.mem_map.mp hi with ⟨m, hm, rfl⟩
  rw [List.mem_range,
    sub_ceil_div_of_dvd n (2 * h) fs (by omega) hdvd (by omega)] at hm
  have h1 : (m + 1) * (2 * h) ≤ (n / (2 * h)) * (2 * h) :=
    Nat.mul_le_mul_right _ hm
  rw [Nat.div_mul_cancel hdvd] at h1
  have h2 : m * (2 * h) + 2 * h ≤ n := by
    calc m * (2 * h) + 2 * h = (m + 1) * (2 * h) := by ring
      _ ≤ n := h1
  omega

/-- A spectrogram.js butterfly with a finite phase maps all-zero data to
all-zero data. -/
theorem sButterfly_zero (a b : ℝ) (h i n : ℕ) (hin : i + h < n) :
    SpectroFFT.sButterfly (some a) (some b) h i (List.replicate n z0) =
      List.replicate n z0 := by
  unfold SpectroFFT.sButterfly
  dsimp only
  rw [getD_replicate_of_lt _ _ (by omega : i < n),
    getD_replicate_of_lt _ _ hin]
  simp [z0, omul, oadd, osub, set_replicate_self]

/-- A spectrogram.js halfSize level maps all-zero data to all-zero
data. -/
theorem halfPass_zero (n h : ℕ) (hh : 0 < h) (hdvd : 2 * h ∣ n) :
    SpectroFFT.halfPass n h (List.replicate n z0) = List.replicate n z0 := by
  unfold SpectroFFT.halfPass
  refine (foldlInv
    (P := fun s : List FFTjs.JsC × (Option ℝ × Option ℝ) =>
      s.1 = List.replicate n z0 ∧ ∃ a b : ℝ, s.2 = (some a, some b))
    ⟨rfl, 1, 0, rfl⟩ ?_).1
  intro s fs hfs hP
  obtain ⟨hv, a, b, hph⟩ := hP
  dsimp only
  constructor
  · refine foldlInv (P := fun w : List FFTjs.JsC => w = List.replicate n z0)
      hv ?_
    intro w i hi hw
    rw [hw, hph]
    exact sButterfly_zero a b h i n
      (innerIdx_bound n h fs i hh hdvd (List.mem_range.mp hfs) hi)
  · rw [hph]
    unfold SpectroFFT.rotate SpectroFFT.cosTable SpectroFFT.sinTable
    exact ⟨_, _, rfl⟩

/-- All spectrogram.js stages map all-zero data to all-zero data
(power-of-two sizes). -/
theorem halvesFrom_zero (k a : ℕ) (hak : a ≤ k) :
    SpectroFFT.halvesFrom (2 ^ k) (2 ^ a) (List.replicate (2 ^ k) z0) =
      List.replicate (2 ^ k) z0 := by
  rw [SpectroFFT.halvesFrom]
  split
  · next h =>
    have hlt : a < k := (Nat.pow_lt_pow_iff_right (by norm_num)).mp h.2
    have hdvd : 2 * 2 ^ a ∣ 2 ^ k := by
      rw [show 2 * 2 ^ a = 2 ^ (a + 1) by ring]
      exact pow_dvd_pow 2 hlt
    rw [halfPass_zero _ _ (by positivity) hdvd]
    rw [show 2 * 2 ^ a = 2 ^ (a + 1) by ring]
    exact halvesFrom_zero k (a + 1) hlt
  · rfl
termination_by k - a
decreasing_by omega

/-- The spectrogram.js forward of an all-zero frame is identically
zero. -/
theorem spectroFFT_forward_zero (k L : ℕ) (hL : 2 ^ k ≤ L) :
    SpectroFFT.forward (2 ^ k) (List.replicate L 0) =
      List.replicate (2 ^ k) z0 := by
  unfold SpectroFFT.forward
  have hinit : (List.range (2 ^ k)).map
      (fun i => ((List.replicate L (0 : ℝ))[i]?, some (0 : ℝ)))
      = List.replicate (2 ^ k) z0 := by
    rw [List.eq_replicate_iff]
    refine ⟨by simp, ?_⟩
    intro b hb
    rcases List.mem_map.mp hb with ⟨i, hi, rfl⟩
    rw [List.mem_range] at hi
    rw [List.getElem?_replicate, if_pos (by omega)]
    rfl
  rw [hinit]
  have h0 := halvesFrom_zero k 0 (Nat.zero_le k)
  rw [pow_zero] at h0
  exact h0

/-! ## C5: the constellation normalization divides by zero on silence -/

/-- log10 of the epsilon guard: logb 10 (1e-6) = -6. -/
theorem logb_one_millionth : Real.logb 10 (1e-6 : ℝ) = -6 := by
  rw [show (1e-6 : ℝ) = (10 : ℝ) ^ ((-6 : ℝ)) by
    rw [Real.rpow_neg (by norm_num), show ((6 : ℝ)) = ((6 : ℕ) : ℝ) by norm_num,
      Real.rpow_natCast]
    norm_num]
  exact Real.logb_rpow (by norm_num) (by norm_num)

/-- Every frame cut from an all-zero signal is all-zero after
windowing. -/
theorem frameAt_silent (n hop L i : ℕ) :
    Constellation.frameAt n hop (List.replicate L 0) i =
      List.replicate n 0 := by
  unfold Constellation.frameAt
  rw [List.eq_replicate_iff]
  refine ⟨by simp, ?_⟩
  intro b hb
  rcases List.mem_map.mp hb with ⟨j, _, rfl⟩
  rw [getD_replicate_self, zero_mul]

/-- The decibel row of an all-zero frame: every bin holds
20 * log10(0 + 1e-6) = -120 dB. -/
theorem dbRow_silent (k fbc : ℕ) (hk : 0 < k) (hfbc : fbc ≤ 2 ^ k) :
    Constellation.dbRow (2 ^ k) fbc (List.replicate (2 ^ k) 0) =
      List.replicate fbc (some (-120 : ℝ)) := by
  unfold Constellation.dbRow
  rw [fftjs_forward_zero k (2 ^ k) hk le_rfl]
  rw [List.eq_replicate_iff]
  refine ⟨by simp, ?_⟩
  intro b hb
  rcases List.mem_map.mp hb with ⟨j, hj, rfl⟩
  rw [List.mem_range] at hj
  rw [getD_replicate_of_lt _ _ (by omega)]
  simp only [z0, omul, oadd, omap, mul_zero, add_zero, Real.sqrt_zero,
    zero_add]
  rw [logb_one_millionth]
  norm_num

/-- Folding Math.max over identical finite decibel values returns that
value. -/
theorem foldl_jsMax_const (c : ℝ) (m : ℕ) :
    List.foldl (fun a x => jsMax a (toJSV x)) (JSV.fin c)
      (List.replicate m (some c)) = JSV.fin c := by
  induction m with
  | zero => rfl
  | succ m ih =>
      rw [List.replicate_succ, List.foldl_cons]
      simpa [jsMax, toJSV] using ih

/-- Folding Math.min over identical finite decibel values returns that
value. -/
theorem foldl_jsMin_const (c : ℝ) (m : ℕ) :
    List.foldl (fun a x => jsMin a (toJSV x)) (JSV.fin c)
      (List.replicate m (some c)) = JSV.fin c := by
  induction m with
  | zero => rfl
  | succ m ih =>
      rw [List.replicate_succ, List.foldl_cons]
      simpa [jsMin, toJSV] using ih

/-- The observed global maximum over one uniform finite row. -/
theorem globalMaxDb_uniform (c : ℝ) (m : ℕ) (hm : 0 < m) :
    Constellation.globalMaxDb [List.replicate m (some c)] = JSV.fin c := by
  unfold Constellation.globalMaxDb
  rcases m with _ | m
  · omega
  · rw [show ([List.replicate (m + 1) (some c)]).flatMap id
        = List.replicate (m + 1) (some c) by simp]
    rw [List.replicate_succ, List.foldl_cons]
    simpa [jsMax, toJSV] using foldl_jsMax_const c m

/-- The observed global minimum over one uniform finite row. -/
theorem globalMinDb_uniform (c : ℝ) (m : ℕ) (hm : 0 < m) :
    Constellation.globalMinDb [List.replicate m (some c)] = JSV.fin c := by
  unfold Constellation.globalMinDb
  rcases m with _ | m
  · omega
  · rw [show ([List.replicate (m + 1) (some c)]).flatMap id
        = List.replicate (m + 1) (some c) by simp]
    rw [List.replicate_succ, List.foldl_cons]
    simpa [jsMin, toJSV] using foldl_jsMin_const c m

/-- The decibel rows of the constellation pipeline on 2560 samples of
silence: one frame, every bin at -120 dB. -/
theorem tempData_silent :
    Constellation.tempData 2048 512 1024 (List.replicate 2560 (0 : ℝ)) =
      [List.replicate 1024 (some (-120 : ℝ))] := by
  unfold Constellation.tempData
  rw [show Constellation.numFrames 2048 512 (List.replicate 2560 (0 : ℝ)) = 1 by
    unfold Constellation.numFrames
    rw [List.length_replicate]]
  rw [show List.range 1 = [0] from rfl]
  rw [List.map_cons, List.map_nil, frameAt_silent]
  rw [show (2048 : ℕ) = 2 ^ 11 by norm_num]
  rw [dbRow_silent 11 1024 (by norm_num) (by norm_num)]

/-- Claim C5 (code bug): on a silent signal long enough for one frame,
the constellation pipeline's observed maximum and minimum decibel values
coincide (-120 dB everywhere), its normalization divides 0 by 0, and every
cell of the resulting matrix is NaN - not the claimed 0. -/
theorem constellation_silent_nan :
    Constellation.run (List.replicate 2560 (0 : ℝ)) =
      [List.replicate 1024 JSV.nan] := by
  unfold Constellation.run Constellation.spectrogramData
  rw [show ((2048 : ℕ) / 4) = 512 from rfl, show ((2048 : ℕ) / 2) = 1024 from rfl]
  rw [tempData_silent]
  dsimp only
  rw [globalMaxDb_uniform _ _ (by norm_num), globalMinDb_uniform _ _ (by norm_num)]
  rw [List.map_cons, List.map_nil, List.map_replicate]
  rw [show jsSub (toJSV (some (-120 : ℝ))) (JSV.fin (-120 : ℝ)) = JSV.fin 0 by
    simp [jsSub, toJSV]]
  rw [show jsSub (JSV.fin (-120 : ℝ)) (JSV.fin (-120 : ℝ)) = JSV.fin 0 by
    simp [jsSub]]
  rw [show jsDiv (JSV.fin (0 : ℝ)) (JSV.fin (0 : ℝ)) = JSV.nan by
    simp [jsDiv]]

/-! ## C6: spectrogram.js normalizes against fixed bounds, not observed
ones -/

/-- The windowing of an all-zero frame is all-zero. -/
theorem applyWindow_silent (n : ℕ) :
    SpectroVis.applyWindow (List.replicate n 0) = List.replicate n 0 := by
  unfold SpectroVis.applyWindow
  rw [List.eq_replicate_iff]
  refine ⟨by simp, ?_⟩
  intro b hb
  rcases List.mem_map.mp hb with ⟨j, _, rfl⟩
  rw [getD_replicate_self, zero_mul]

/-- The frames of 2560 samples of silence: exactly one, all-zero. -/
theorem frames_silent :
    SpectroVis.frames 2048 512 (List.replicate 2560 (0 : ℝ)) =
      [List.replicate 2048 0] := by
  unfold SpectroVis.frames
  rw [show Constellation.numFrames 2048 512 (List.replicate 2560 (0 : ℝ)) = 1 by
    unfold Constellation.numFrames
    rw [List.length_replicate]]
  rw [show List.range 1 = [0] from rfl]
  rw [List.map_cons, List.map_nil]
  rw [show (0 * 512 : ℕ) = 0 from rfl, List.drop_zero, List.take_replicate]
  norm_num

/-- The clamped decibel row of an all-zero frame: every bin holds
max(-90, min(-20, -120)) = -90 dB, so the observed maximum (and minimum)
of a silent run is -90 at every cell. -/
theorem dbRowClamped_silent (k fbc : ℕ) (hfbc : fbc ≤ 2 ^ k) :
    SpectroVis.dbRowClamped (2 ^ k) fbc (-90) (-20)
      (List.replicate (2 ^ k) 0) = List.replicate fbc (some (-90 : ℝ)) := by
  unfold SpectroVis.dbRowClamped
  rw [spectroFFT_forward_zero k (2 ^ k) le_rfl]
  rw [List.eq_replicate_iff]
  refine ⟨by simp, ?_⟩
  intro b hb
  rcases List.mem_map.mp hb with ⟨j, hj, rfl⟩
  rw [List.mem_range] at hj
  rw [getD_replicate_of_lt _ _ (by omega)]
  simp only [z0, omul, oadd, omap, mul_zero, add_zero, Real.sqrt_zero,
    zero_add]
  rw [logb_one_millionth]
  norm_num

/-- Claim C6 (code bug): on a silent signal the spectrogram.js builder's
clamped decibel matrix is -90 dB at every cell - so the observed maximum
and minimum both equal -90 - yet its pre-exponent normalized value is
(d - (-90)) / ((-20) - (-90)) = 0 at every cell: the observed maximum cell
maps to 0, not 1, because the code normalizes against the fixed bounds
-90 and -20 and never computes the observed extrema its comments
promise. -/
theorem spectroVis_fixed_bounds :
    SpectroVis.dbMatrix 2048 (-90) (-20) (List.replicate 2560 (0 : ℝ)) =
      [List.replicate 1024 (some (-90 : ℝ))]
    ∧ SpectroVis.normPreMatrix 2048 (-90) (-20)
        (List.replicate 2560 (0 : ℝ)) =
      [List.replicate 1024 (some (0 : ℝ))] := by
  have hdb : SpectroVis.dbMatrix 2048 (-90) (-20)
      (List.replicate 2560 (0 : ℝ)) = [List.replicate 1024 (some (-90 : ℝ))] := by
    unfold SpectroVis.dbMatrix SpectroVis.windowedFrames
    rw [show ((2048 : ℕ) / 4) = 512 from rfl,
      show ((2048 : ℕ) / 2) = 1024 from rfl]
    rw [frames_silent, List.map_cons, List.map_nil, applyWindow_silent,
      List.map_cons, List.map_nil]
    rw [show (2048 : ℕ) = 2 ^ 11 by norm_num]
    rw [dbRowClamped_silent 11 1024 (by norm_num)]
  refine ⟨hdb, ?_⟩
  unfold SpectroVis.normPreMatrix
  rw [hdb, List.map_cons, List.map_nil, List.map_replicate]
  rw [show omap (fun d => (d - (-90)) / ((-20) - (-90))) (some (-90 : ℝ))
      = some (0 : ℝ) by simp [omap]]

/-! ## C7: framing and windowing -/

/-- Claim C7: with hop H = floor(N/4), the builder produces exactly
floor((L - N) / H) windowed frames; frame i has length N, stays inside
the signal (i*H + N ≤ L), and its entry j is sample i*H + j scaled by the
Hann coefficient 0.5 * (1 - cos(2 pi j / (N - 1))). -/
theorem framing_hann (N : ℕ) (hN : 4 ≤ N) (audio : List ℝ) :
    (SpectroVis.windowedFrames N (N / 4) audio).length =
      (audio.length - N) / (N / 4)
    ∧ ∀ i, i < (audio.length - N) / (N / 4) →
        i * (N / 4) + N ≤ audio.length
        ∧ ((SpectroVis.windowedFrames N (N / 4) audio).getD i []).length = N
        ∧ ∀ j, j < N →
            ((SpectroVis.windowedFrames N (N / 4) audio).getD i []).getD j 0 =
              audio.getD (i * (N / 4) + j) 0 *
                (0.5 * (1 - Real.cos (2 * Real.pi * (j : ℝ) / ((N : ℝ) - 1)))) := by
  have hH : 0 < N / 4 := Nat.div_pos (by omega) (by norm_num)
  constructor
  · unfold SpectroVis.windowedFrames SpectroVis.frames Constellation.numFrames
    simp
  · intro i hi
    have hbound : i * (N / 4) + N ≤ audio.length := by
      have h1 : (i + 1) * (N / 4) ≤ audio.length - N :=
        (Nat.le_div_iff_mul_le hH).mp (by omega)
      have h2 : i * (N / 4) + N / 4 ≤ audio.length - N := by
        calc i * (N / 4) + N / 4 = (i + 1) * (N / 4) := by ring
          _ ≤ audio.length - N := h1
      omega
    have hframe : (SpectroVis.windowedFrames N (N / 4) audio).getD i [] =
        SpectroVis.applyWindow ((audio.drop (i * (N / 4))).take N) := by
      unfold SpectroVis.windowedFrames SpectroVis.frames
      rw [List.getD_eq_getElem?_getD, List.getElem?_map, List.getElem?_map,
        List.getElem?_range (by simpa [Constellation.numFrames] using hi)]
      rfl
    have hslice : ((audio.drop (i * (N / 4))).take N).length = N := by
      rw [List.length_take, List.length_drop]
      omega
    have hlen : ((SpectroVis.windowedFrames N (N / 4) audio).getD i []).length
        = N := by
      rw [hframe]
      unfold SpectroVis.applyWindow
      rw [List.length_map, List.length_range, hslice]
    refine ⟨hbound, hlen, ?_⟩
    intro j hj
    rw [hframe]
    unfold SpectroVis.applyWindow
    rw [hslice]
    rw [List.getD_eq_getElem?_getD, List.getElem?_map,
      List.getElem?_range hj]
    simp only [Option.map_some', Option.getD_some]
    rw [show ((audio.drop (i * (N / 4))).take N).getD j 0
        = audio.getD (i * (N / 4) + j) 0 by
      rw [List.getD_eq_getElem?_getD, List.getD_eq_getElem?_getD,
        List.getElem?_take, if_pos hj, List.getElem?_drop]]
    rfl

/-- The C7 framing theorem applied to a concrete signal: 2 frames from 12
samples at FFT size 8, hop 2. -/
theorem framing_hann_witness :
    (SpectroVis.windowedFrames 8 (8 / 4) (List.replicate 12 (0 : ℝ))).length
      = 2 := by
  have h := (framing_hann 8 (by norm_num) (List.replicate 12 (0 : ℝ))).1
  simpa using h
